import Mathlib

/-!
Verification of the `copilot-play` terminal wrapper (`src/copilot-play.ts`)
against its natural-language specification.

The development shallowly embeds the program's components:
text is modelled as `List Char`, the output buffer as a structure holding
completed lines and the trailing partial line, the game as a record with a
nondeterministic step relation (the target relocation uses `Math.random`),
the hook-state file as an optional `(content, mtimeMs)` pair, and the
command-line parser as a recursive scan over the argument list.
-/

namespace CopilotPlay

/-! ## Output Buffer (`class OutputBuffer`, src/copilot-play.ts lines 13-35) -/

/-- Character class `[0-9;?]` of the CSI-parameter section of
`ANSI_RE = /\x1b\[[0-9;?]*[A-Za-z]/g` (line 7 of the source). -/
def isCsiParam (c : Char) : Bool :=
  c.isDigit || c = ';' || c = '?'

/-- Given the characters following `ESC [`, try to complete a CSI match:
consume the maximal run of `[0-9;?]` characters and then one `[A-Za-z]`
terminator, returning the remainder on success.  This is the tail of one
match of `ANSI_RE`. -/
def csiMatch (cs : List Char) : Option (List Char) :=
  match cs.dropWhile isCsiParam with
  | d :: r => if d.isAlpha then some r else none
  | [] => none

/-- One left-to-right pass of `text.replace(ANSI_RE, "")`: at each position,
if a full CSI sequence `ESC [ params letter` starts there it is dropped,
otherwise the character is kept and scanning resumes one character later
(exactly how a global regex replace advances past a failed match position).
The fuel argument is initialised to the text length; every recursive call
consumes at least one character, so the fuel never runs out. -/
def stripAnsiFuel : Nat → List Char → List Char
  | 0, t => t
  | _, [] => []
  | fuel + 1, c :: cs =>
    if c = '\x1b' then
      match cs with
      | '[' :: rest =>
        match csiMatch rest with
        | some r => stripAnsiFuel fuel r
        | none => c :: stripAnsiFuel fuel cs
      | _ => c :: stripAnsiFuel fuel cs
    else c :: stripAnsiFuel fuel cs

/-- `text.replace(ANSI_RE, "")` (line 18). -/
def stripAnsi (t : List Char) : List Char :=
  stripAnsiFuel t.length t

/-- `text.replace(ANSI_RE, "").replace(/\r/g, "")` (line 18): strip ANSI CSI
sequences, then remove every carriage return. -/
def cleanChunk (t : List Char) : List Char :=
  (stripAnsi t).filter (fun c => c != '\r')

/-- `cleaned.split("\n")` (line 19), represented as the first segment paired
with the list of remaining segments (so the JS `parts` array is
`(splitNl t).1 :: (splitNl t).2`, which is always non-empty, exactly as
`String.prototype.split` never returns an empty array). -/
def splitNl : List Char → List Char × List (List Char)
  | [] => ([], [])
  | c :: cs =>
    if c = '\n' then ([], (splitNl cs).1 :: (splitNl cs).2)
    else (c :: (splitNl cs).1, (splitNl cs).2)

/-- Last element of a list with a default, modelling `parts[parts.length - 1]`
(line 26); the default is never used on the non-empty lists it is applied to. -/
def lastD : List (List Char) → List Char → List Char
  | [], d => d
  | [x], _ => x
  | _ :: y :: ys, d => lastD (y :: ys) d

/-- `xs.slice(-n)`: the last `n` elements of `xs` (line 28 uses `n = 2000`). -/
def takeLast (n : Nat) (xs : List (List Char)) : List (List Char) :=
  (xs.reverse.take n).reverse

/-- Lines 27-29: `if (this.lines.length > 2000) this.lines = this.lines.slice(-2000)`. -/
def truncate2000 (xs : List (List Char)) : List (List Char) :=
  if 2000 < xs.length then takeLast 2000 xs else xs

/-- The state of `class OutputBuffer`: `lines` holds the completed lines and
`pending` the trailing partial line (the source's `partial` field, renamed
because `partial` is a Lean keyword). -/
structure OutputBuffer where
  lines : List (List Char)
  pending : List Char
deriving DecidableEq, Repr

/-- The line-assembly stage of `OutputBuffer.append` (lines 19-29), applied to
the already-cleaned text: if the split produced a single part there is no
newline and the part extends the pending partial line (lines 20-23);
otherwise the first part completes the pending line, the interior parts
become completed lines (`parts.slice(1, -1)`), the final part becomes the
new partial line, and the completed lines are truncated to the most recent
2000 (lines 24-29). -/
def appendClean (b : OutputBuffer) (t : List Char) : OutputBuffer :=
  let s := (splitNl t).1
  let rest := (splitNl t).2
  if rest = [] then
    OutputBuffer.mk b.lines (b.pending ++ s)
  else
    OutputBuffer.mk
      (truncate2000 (b.lines ++ (b.pending ++ s) :: rest.dropLast))
      (lastD rest [])

/-- `OutputBuffer.append` (lines 17-30): clean the chunk, then assemble lines. -/
def OutputBuffer.append (b : OutputBuffer) (text : List Char) : OutputBuffer :=
  appendClean b (cleanChunk text)

/-- `OutputBuffer.snapshot` (lines 32-34): completed lines plus the partial
line when it is non-empty (JS string truthiness). -/
def OutputBuffer.snapshot (b : OutputBuffer) : List (List Char) :=
  if b.pending = [] then b.lines else b.lines ++ [b.pending]

/-- The buffer as initialised on lines 14-15: no lines, empty partial. -/
def OutputBuffer.empty : OutputBuffer :=
  OutputBuffer.mk [] []

/-- Feeding a whole sequence of chunks to a fresh buffer. -/
def appendAll (chunks : List (List Char)) : OutputBuffer :=
  chunks.foldl OutputBuffer.append OutputBuffer.empty

/-- The completed lines a multi-part chunk inserts before truncation:
the pending line closed by the first part, followed by the interior parts. -/
def newCompleted (b : OutputBuffer) (t : List Char) : List (List Char) :=
  let s := (splitNl (cleanChunk t)).1
  let rest := (splitNl (cleanChunk t)).2
  if rest = [] then [] else (b.pending ++ s) :: rest.dropLast

/-- How the newline split of a concatenation is assembled from the splits of
the two halves: the last segment of the first half glues onto the first
segment of the second half. -/
def combineSplit (p q : List Char × List (List Char)) :
    List Char × List (List Char) :=
  if p.2 = [] then (p.1 ++ q.1, q.2)
  else (p.1, p.2.dropLast ++ (lastD p.2 [] ++ q.1) :: q.2)

/-! ## Game (`class Game`, src/copilot-play.ts lines 37-99)

Coordinates and dimensions are JS numbers holding integers; they are
modelled as `Int`.  Target relocation calls `Math.random`, so the game is
embedded as a nondeterministic step relation: `Math.floor(Math.random() *
width)` is an arbitrary integer in `[0, width)`. -/

/-- The game record: grid size, player position, target position, score. -/
structure Game where
  width : Int
  height : Int
  px : Int
  py : Int
  tx : Int
  ty : Int
  score : Int
deriving DecidableEq, Repr

/-- `Math.max(lo, Math.min(hi, v))`, the clamping pattern of `Game.move`
(lines 59-60). -/
def clampI (lo hi v : Int) : Int :=
  max lo (min hi v)

/-- The game as initialised by the field initialisers on lines 38-42. -/
def Game.init : Game :=
  Game.mk 10 6 0 0 0 0 0

/-- `g` with only the target replaced, the effect of `placeTarget`
(lines 85-98) on the record. -/
def Game.withTarget (g : Game) (x y : Int) : Game :=
  Game.mk g.width g.height g.px g.py x y g.score

/-- The deterministic part of `Game.move` (lines 59-60): clamp the player
into the grid after adding the delta. -/
def Game.moveBase (g : Game) (dx dy : Int) : Game :=
  Game.mk g.width g.height
    (clampI 0 (g.width - 1) (g.px + dx))
    (clampI 0 (g.height - 1) (g.py + dy))
    g.tx g.ty g.score

/-- The state just after `this.score += 1` inside a capturing `move`
(lines 61-62), before `placeTarget` runs. -/
def Game.capturedBase (g : Game) (dx dy : Int) : Game :=
  Game.mk g.width g.height
    (clampI 0 (g.width - 1) (g.px + dx))
    (clampI 0 (g.height - 1) (g.py + dy))
    g.tx g.ty (g.score + 1)

/-- The deterministic part of `Game.reset` (lines 52-55): zero the score and
centre the player (`Math.floor(width / 2)` is floor division), before
`placeTarget` runs. -/
def Game.resetBase (g : Game) : Game :=
  Game.mk g.width g.height (Int.fdiv g.width 2) (Int.fdiv g.height 2)
    g.tx g.ty 0

/-- The deterministic part of `Game.resize` (lines 44-49): clamp the
dimensions to at least 5 and the player into the new grid, before
`placeTarget` runs. -/
def Game.resizeBase (g : Game) (w h : Int) : Game :=
  Game.mk (max 5 w) (max 5 h)
    (min g.px (max 5 w - 1)) (min g.py (max 5 h - 1))
    g.tx g.ty g.score

/-- `placeTarget` (lines 85-98) as a relation: on a degenerate grid the
target is pinned to the origin; otherwise the rejection-sampling loop
returns some in-bounds cell different from the player's cell (the sampled
`Math.floor(Math.random() * width)` is an arbitrary value in
`[0, width)`). -/
inductive PlaceTarget : Game → Game → Prop
  | degenerate (g : Game) (h : g.width ≤ 1 ∨ g.height ≤ 1) :
      PlaceTarget g (g.withTarget 0 0)
  | sample (g : Game) (x y : Int)
      (hw : 1 < g.width) (hh : 1 < g.height)
      (hx0 : 0 ≤ x) (hx1 : x < g.width) (hy0 : 0 ≤ y) (hy1 : y < g.height)
      (hne : ¬(x = g.px ∧ y = g.py)) :
      PlaceTarget g (g.withTarget x y)

/-- The game operations driven by the keypress handler (lines 350-363). -/
inductive GOp
  | move (dx dy : Int)
  | reset
  | resize (w h : Int)
deriving DecidableEq, Repr

/-- One `Game` method call as a step relation.  `move` (lines 58-65) clamps
the player; when the new position equals the target the score is
incremented and the target relocated, otherwise the state is just the
clamped move.  `reset` (lines 52-56) and `resize` (lines 44-50) both end by
relocating the target. -/
inductive GStep : Game → GOp → Game → Prop
  | moveNoCapture (g : Game) (dx dy : Int)
      (h : ¬((g.moveBase dx dy).px = g.tx ∧ (g.moveBase dx dy).py = g.ty)) :
      GStep g (GOp.move dx dy) (g.moveBase dx dy)
  | moveCapture (g : Game) (dx dy : Int) (g' : Game)
      (h : (g.moveBase dx dy).px = g.tx ∧ (g.moveBase dx dy).py = g.ty)
      (hp : PlaceTarget (g.capturedBase dx dy) g') :
      GStep g (GOp.move dx dy) g'
  | reset (g g' : Game) (hp : PlaceTarget g.resetBase g') :
      GStep g GOp.reset g'
  | resize (g : Game) (w h : Int) (g' : Game)
      (hp : PlaceTarget (g.resizeBase w h) g') :
      GStep g (GOp.resize w h) g'

/-- A sequence of game operations executed in order. -/
inductive GTrace : Game → List GOp → Game → Prop
  | nil (g : Game) : GTrace g [] g
  | cons {g g' g'' : Game} {op : GOp} {ops : List GOp}
      (hs : GStep g op g') (ht : GTrace g' ops g'') :
      GTrace g (op :: ops) g''

/-! ## Focus Arbiter (src/copilot-play.ts lines 10, 253-255, 299-302, 347-349) -/

/-- `type Focus = "game" | "copilot"` (line 10). -/
inductive Focus
  | game
  | copilot
deriving DecidableEq, Repr

/-- `type HookState = "busy" | "idle" | "unknown"` (line 11). -/
inductive HookState
  | busy
  | idle
  | unknown
deriving DecidableEq, Repr

/-- `const waiting = promptDetected || hookState === "idle"` (lines 300, 348). -/
def waitingOf (promptDetected : Bool) (hookState : HookState) : Bool :=
  promptDetected || (hookState == HookState.idle)

/-- `const focus: Focus = manualFocus ?? (waiting ? "copilot" : "game")` as
computed in `render` (line 301). -/
def renderFocus (manualFocus : Option Focus) (promptDetected : Bool)
    (hookState : HookState) : Focus :=
  manualFocus.getD (if waitingOf promptDetected hookState then Focus.copilot else Focus.game)

/-- `const status = waiting ? "PAUSED" : "RUNNING"` (line 302). -/
def renderStatus (promptDetected : Bool) (hookState : HookState) : String :=
  if waitingOf promptDetected hookState then "PAUSED" else "RUNNING"

/-- The identical focus computation done again in the keypress handler
(lines 348-349). -/
def keypressFocus (manualFocus : Option Focus) (promptDetected : Bool)
    (hookState : HookState) : Focus :=
  manualFocus.getD (if waitingOf promptDetected hookState then Focus.copilot else Focus.game)

/-! ## Prompt Detector (`detectPrompt`, src/copilot-play.ts lines 149-158) -/

/-- Whitespace removed by `String.prototype.trim` (restricted to the ASCII
whitespace characters relevant to terminal output). -/
def isJsWs (c : Char) : Bool :=
  c = ' ' || c = '\t' || c = '\n' || c = '\r' || c = '\x0b' || c = '\x0c'

/-- `line.trim()` (line 151): drop whitespace from both ends. -/
def jsTrim (l : List Char) : List Char :=
  ((l.dropWhile isJsWs).reverse.dropWhile isJsWs).reverse

/-- The default prompt regexes of line 8, `DEFAULT_PROMPTS = [/^> ?$/,
/^copilot> ?$/, /^❯ ?$/]`, each as the predicate it decides on a full
line: the anchored body followed by an optional space. -/
def promptGt (l : List Char) : Bool :=
  l = ">".data || l = "> ".data

/-- `/^copilot> ?$/`, the second default prompt pattern. -/
def promptCopilot (l : List Char) : Bool :=
  l = "copilot>".data || l = "copilot> ".data

/-- `/^❯ ?$/`, the third default prompt pattern. -/
def promptGlyph (l : List Char) : Bool :=
  l = "❯".data || l = "❯ ".data

/-- `DEFAULT_PROMPTS` (line 8) as pattern predicates. -/
def DEFAULT_PROMPTS : List (List Char → Bool) :=
  [promptGt, promptCopilot, promptGlyph]

/-- The loop body of `detectPrompt` applied to the lines in reverse order:
trim the line, skip it while blank, and test the first non-blank line
against every pattern (`patterns.some`, line 155). -/
def detectFromEnd : List (List Char) → List (List Char → Bool) → Bool
  | [], _ => false
  | l :: rest, patterns =>
    let t := jsTrim l
    if t = [] then detectFromEnd rest patterns
    else patterns.any (fun p => p t)

/-- `detectPrompt(lines, patterns)` (lines 149-158): scan from the last line
backwards. -/
def detectPrompt (lines : List (List Char)) (patterns : List (List Char → Bool)) : Bool :=
  detectFromEnd lines.reverse patterns

/-- The trimmed first non-blank line scanning from the end, the single line
`detectPrompt` ever tests. -/
def lastNonBlank (lines : List (List Char)) : Option (List Char) :=
  lines.reverse.find? (fun l => jsTrim l != [])

/-! ## Hook State Reader (`readHookState`, src/copilot-play.ts lines 160-180)

The file system is modelled as `Option (content, mtimeMs)`: `none` is a
missing file (`statSync` throws ENOENT), `some` a readable file with its
modification time.  `JSON.parse` is modelled for the hook file's format:
a flat JSON object whose values are strings, numbers, `true`, `false` or
`null`, with no escape sequences inside strings. -/

/-- JSON whitespace. -/
def jsonWs (c : Char) : Bool :=
  c = ' ' || c = '\t' || c = '\n' || c = '\r'

/-- Skip JSON whitespace. -/
def skipWs (l : List Char) : List Char :=
  l.dropWhile jsonWs

/-- Scan a JSON string body after the opening quote: the characters up to
the closing quote and the remainder; fails on a backslash (escapes are not
used in the hook file format) or a missing closing quote. -/
def takeJsonString : List Char → Option (List Char × List Char)
  | [] => none
  | c :: cs =>
    if c = '"' then some ([], cs)
    else if c = '\\' then none
    else (takeJsonString cs).map (fun p => (c :: p.1, p.2))

/-- A JSON value as far as `readHookState` cares: a string, or any other
scalar (the code only ever compares `parsed.state` with the strings
`"busy"` and `"idle"`). -/
inductive JVal
  | str (s : List Char)
  | lit
deriving DecidableEq, Repr

/-- Characters that may continue a JSON number token. -/
def isNumChar (c : Char) : Bool :=
  c.isDigit || c = '.' || c = 'e' || c = 'E' || c = '+' || c = '-'

/-- Parse one scalar JSON value and return the remainder. -/
def parseJsonValue : List Char → Option (JVal × List Char)
  | [] => none
  | c :: cs =>
    if c = '"' then (takeJsonString cs).map (fun p => (JVal.str p.1, p.2))
    else if c.isDigit || c = '-' then some (JVal.lit, cs.dropWhile isNumChar)
    else if c = 't' ∧ cs.take 3 = "rue".data then some (JVal.lit, cs.drop 3)
    else if c = 'f' ∧ cs.take 4 = "alse".data then some (JVal.lit, cs.drop 4)
    else if c = 'n' ∧ cs.take 3 = "ull".data then some (JVal.lit, cs.drop 3)
    else none

/-- Parse the members of a JSON object after the opening brace, expecting at
least one `"key": value` pair and ending at the closing brace.  The fuel is
initialised to the input length; each pair consumes at least one character. -/
def parseMembers : Nat → List Char → Option (List (List Char × JVal) × List Char)
  | 0, _ => none
  | fuel + 1, l =>
    match skipWs l with
    | '"' :: cs =>
      match takeJsonString cs with
      | some (key, rest) =>
        match skipWs rest with
        | ':' :: rest2 =>
          match parseJsonValue (skipWs rest2) with
          | some (v, rest3) =>
            match skipWs rest3 with
            | ',' :: rest4 =>
              (parseMembers fuel rest4).map (fun p => ((key, v) :: p.1, p.2))
            | '}' :: rest4 => some ([(key, v)], rest4)
            | _ => none
          | none => none
        | _ => none
      | none => none
    | _ => none

/-- `JSON.parse` on the hook file's flat-object format: `none` models a
thrown `SyntaxError`, `some kvs` a parsed object with its key-value pairs. -/
def parseJson (l : List Char) : Option (List (List Char × JVal)) :=
  match skipWs l with
  | '{' :: rest =>
    match skipWs rest with
    | '}' :: rest2 => if skipWs rest2 = [] then some [] else none
    | _ =>
      match parseMembers (rest.length + 1) rest with
      | some (kvs, rest2) => if skipWs rest2 = [] then some kvs else none
      | none => none
  | _ => none

/-- The outcome of `JSON.parse(raw)` followed by reading `parsed.state`
(lines 170-171): `none` when parsing throws, `some none` when the parse
succeeds but `state` is missing or not a string, `some (some s)` when the
`state` field holds the string `s`. -/
def stateField (content : List Char) : Option (Option (List Char)) :=
  (parseJson content).map (fun kvs =>
    match kvs.lookup ("state".data) with
    | some (JVal.str s) => some s
    | _ => none)

/-- Lines 169-179 of `readHookState` after the mtime short-circuit: read and
parse the content.  A parse failure is caught with a non-ENOENT code and
returns `(unknown, previousMtime)` (lines 174-177); a recognised state is
returned with the new mtime (lines 171-173); anything else falls through to
`(unknown, null)` (line 179). -/
def readHookContent (content : List Char) (mtimeMs : Nat)
    (previousMtime : Option Nat) : HookState × Option Nat :=
  match stateField content with
  | none => (HookState.unknown, previousMtime)
  | some (some s) =>
    if s = "busy".data then (HookState.busy, some mtimeMs)
    else if s = "idle".data then (HookState.idle, some mtimeMs)
    else (HookState.unknown, none)
  | some none => (HookState.unknown, none)

/-- `readHookState(stateFile, previousMtime)` (lines 160-180) over the
modelled file system: a missing file throws ENOENT and falls through to
`(unknown, null)`; an unchanged mtime short-circuits to
`(unknown, previousMtime)` without reading the content (lines 166-168);
otherwise the content is read and parsed. -/
def readHookState (file : Option (List Char × Nat)) (previousMtime : Option Nat) :
    HookState × Option Nat :=
  match file with
  | none => (HookState.unknown, none)
  | some (content, mtimeMs) =>
    match previousMtime with
    | some p =>
      if mtimeMs = p then (HookState.unknown, some p)
      else readHookContent content mtimeMs (some p)
    | none => readHookContent content mtimeMs none

/-! ## Input Router (`sendToCopilot`, src/copilot-play.ts lines 182-215) -/

/-- The fields of the blessed key event that `sendToCopilot` reads: `name`
and `sequence`, each possibly `undefined`. -/
structure KeyEvent where
  name : Option String
  sequence : Option String
deriving DecidableEq, Repr

/-- JS truthiness of a possibly-`undefined` string: `undefined` and `""` are
falsy. -/
def truthyOpt (o : Option String) : Bool :=
  match o with
  | none => false
  | some s => s != ""

/-- `sendToCopilot(ptyProcess, key, ch)` (lines 182-215), returning the list
of strings written to the pseudo-terminal in order: named keys map to their
control sequences, then a truthy raw `key.sequence` is forwarded verbatim,
then a truthy `ch` is forwarded, and otherwise nothing is written. -/
def sendToCopilot (key : KeyEvent) (ch : Option String) : List String :=
  if key.name = some "enter" then ["\r"]
  else if key.name = some "backspace" then ["\x7f"]
  else if key.name = some "up" then ["\x1b[A"]
  else if key.name = some "down" then ["\x1b[B"]
  else if key.name = some "left" then ["\x1b[D"]
  else if key.name = some "right" then ["\x1b[C"]
  else if truthyOpt key.sequence then [key.sequence.getD ""]
  else if truthyOpt ch then [ch.getD ""]
  else []

/-- The key names `sendToCopilot` handles explicitly. -/
def namedKeys : List (Option String) :=
  [some "enter", some "backspace", some "up", some "down", some "left", some "right"]

/-! ## Argument parser (`parseArgs`, src/copilot-play.ts lines 108-137) -/

/-- A compiled prompt regex as `parseArgs` stores it: one of the three
defaults or a user-supplied `--prompt-regex` source string. -/
inductive PatternSrc
  | gt
  | copilotPrompt
  | glyph
  | custom (src : String)
deriving DecidableEq, Repr

/-- `[...DEFAULT_PROMPTS]` (line 117). -/
def DEFAULT_PROMPTS_SRC : List PatternSrc :=
  [PatternSrc.gt, PatternSrc.copilotPrompt, PatternSrc.glyph]

/-- The `Args` record returned by `parseArgs` (lines 101-106).  The
`stateFile` default (environment variable or home-directory path, lines
114-116) is supplied to `parseArgs` as a parameter since it comes from the
process environment. -/
structure Args where
  copilot : String
  stateFile : String
  promptPatterns : List PatternSrc
  copilotArgs : List String
deriving DecidableEq, Repr

/-- The outcome of `parseArgs`: either the parsed record, or `--help` was
hit (which prints usage and exits 0, lines 130-133). -/
inductive ParseResult
  | help
  | ok (args : Args)
deriving DecidableEq, Repr

/-- The scanning loop of `parseArgs` (lines 119-134) over the wrapper
arguments: a recognised flag consumes its successor only when the successor
exists and is truthy (non-empty); `--help` returns immediately; anything
else is skipped. -/
def processWrapper : List String → Args → ParseResult
  | [], acc => ParseResult.ok acc
  | a :: rest, acc =>
    match rest with
    | [] =>
      if a = "--help" then ParseResult.help else ParseResult.ok acc
    | b :: rest2 =>
      if a = "--copilot" ∧ b ≠ "" then
        processWrapper rest2 (Args.mk b acc.stateFile acc.promptPatterns acc.copilotArgs)
      else if a = "--state-file" ∧ b ≠ "" then
        processWrapper rest2 (Args.mk acc.copilot b acc.promptPatterns acc.copilotArgs)
      else if a = "--prompt-regex" ∧ b ≠ "" then
        processWrapper rest2
          (Args.mk acc.copilot acc.stateFile
            (acc.promptPatterns ++ [PatternSrc.custom b]) acc.copilotArgs)
      else if a = "--help" then ParseResult.help
      else processWrapper (b :: rest2) acc

/-- `parseArgs(argv)` (lines 108-137): split at the first `--` separator
(`argv.indexOf("--")` with slices), then scan the wrapper arguments
starting from the defaults. -/
def parseArgs (defaultStateFile : String) (argv : List String) : ParseResult :=
  let wrapperArgs := argv.takeWhile (fun s => s ≠ "--")
  let copilotArgs :=
    match argv.dropWhile (fun s => s ≠ "--") with
    | [] => []
    | _ :: rest => rest
  processWrapper wrapperArgs
    (Args.mk "copilot" defaultStateFile DEFAULT_PROMPTS_SRC copilotArgs)

/-! ## C1: the focus arbiter -/

/-- C1: for every override, prompt-detection flag and hook state, the focus
computed at each render tick and at each keystroke is the override when it
is set, otherwise `copilot` (the driven process) exactly when
`promptDetected || hookState === "idle"` holds and `game` otherwise; the
reported status is `PAUSED` exactly under the same condition.  In
particular override `none`, `promptDetected = false`, `hookState = busy`
gives focus `game`, status `RUNNING`, and flipping `promptDetected` alone
gives focus `copilot`, status `PAUSED` on the next recomputation. -/
theorem C1_focus_arbiter :
    (∀ (mf : Option Focus) (pd : Bool) (hs : HookState),
      renderFocus mf pd hs =
        (match mf with
         | some f => f
         | none => if pd || (hs == HookState.idle) then Focus.copilot else Focus.game)
      ∧ keypressFocus mf pd hs = renderFocus mf pd hs
      ∧ renderStatus pd hs =
          (if pd || (hs == HookState.idle) then "PAUSED" else "RUNNING"))
    ∧ renderFocus none false HookState.busy = Focus.game
    ∧ renderStatus false HookState.busy = "RUNNING"
    ∧ renderFocus none true HookState.busy = Focus.copilot
    ∧ renderStatus true HookState.busy = "PAUSED" := by
  refine ⟨?_, rfl, rfl, rfl, rfl⟩
  intro mf pd hs
  cases mf <;> cases pd <;> cases hs <;>
    simp [renderFocus, keypressFocus, renderStatus, waitingOf]

/-! ## C5: hook reader short-circuit and poll scenario -/

/-- C5: an unchanged modification time short-circuits to
`(unknown, previousMtime)` whatever the content is; a missing file gives
`(unknown, none)`; and on a file containing `{"state":"idle","timestamp":1}`
the first poll returns `idle` with the concrete mtime, a second poll with
that mtime returns `unknown`, and after a rewrite the next poll returns the
new state. -/
theorem C5_hook_reader_poll :
    (∀ (content : List Char) (mtimeMs : Nat),
      readHookState (some (content, mtimeMs)) (some mtimeMs)
        = (HookState.unknown, some mtimeMs))
    ∧ (∀ prev : Option Nat, readHookState none prev = (HookState.unknown, none))
    ∧ readHookState (some (("\x7b\"state\":\"idle\",\"timestamp\":1\x7d").data, 7)) none
        = (HookState.idle, some 7)
    ∧ readHookState (some (("\x7b\"state\":\"idle\",\"timestamp\":1\x7d").data, 7)) (some 7)
        = (HookState.unknown, some 7)
    ∧ readHookState (some (("\x7b\"state\":\"busy\",\"timestamp\":2\x7d").data, 9)) (some 7)
        = (HookState.busy, some 9) := by
  refine ⟨?_, fun prev => rfl, by decide, by decide, by decide⟩
  intro content mtimeMs
  simp [readHookState]

/-! ## C4: bad-but-readable hook file content -/

/-- C4 counterexample: on a readable file whose content fails to parse
(mtime 5, previous mtime 3) the reader returns the old mtime 3, and on a
readable file whose parsed content has no recognised state it returns no
mtime at all; in neither case is the timestamp advanced to the file's new
modification time 5 as the claim states. -/
theorem C4_counterexample :
    readHookState (some (("not json").data, 5)) (some 3) = (HookState.unknown, some 3)
    ∧ readHookState (some (("\x7b\"state\":\"weird\"\x7d").data, 5)) (some 3)
        = (HookState.unknown, none)
    ∧ readHookState (some (("not json").data, 5)) (some 3) ≠ (HookState.unknown, some 5)
    ∧ readHookState (some (("\x7b\"state\":\"weird\"\x7d").data, 5)) (some 3)
        ≠ (HookState.unknown, some 5) := by
  exact ⟨by decide, by decide, by decide, by decide⟩

/-- C4 amended: on a readable file whose content fails to parse the reader
returns `unknown` with the previous mtime unchanged (not the file's new
modification time), and on content that parses without a recognised state
value it returns `unknown` with no mtime at all — so the same bad content
is re-read on subsequent polls rather than suppressed. -/
theorem C4_bad_content_amended :
    (∀ (content : List Char) (mtimeMs : Nat) (prev : Option Nat),
      stateField content = none →
      readHookState (some (content, mtimeMs)) prev = (HookState.unknown, prev))
    ∧ (∀ (content : List Char) (mtimeMs : Nat) (prev : Option Nat),
      (stateField content = some none ∨
        ∃ s, stateField content = some (some s) ∧ s ≠ "busy".data ∧ s ≠ "idle".data) →
      prev ≠ some mtimeMs →
      readHookState (some (content, mtimeMs)) prev = (HookState.unknown, none)) := by
  constructor
  · intro content mtimeMs prev h
    cases prev with
    | none => simp [readHookState, readHookContent, h]
    | some p =>
      by_cases hm : mtimeMs = p
      · simp [readHookState, hm]
      · simp [readHookState, hm, readHookContent, h]
  · intro content mtimeMs prev h hne
    have hbody : readHookContent content mtimeMs prev = (HookState.unknown, none) := by
      rcases h with h | ⟨s, hs, hsb, hsi⟩
      · simp [readHookContent, h]
      · simp [readHookContent, hs, hsb, hsi]
    cases prev with
    | none => simpa [readHookState] using hbody
    | some p =>
      have hm : ¬ mtimeMs = p := fun hc => hne (by rw [hc])
      simpa [readHookState, hm] using hbody

/-- C4 witness: a concrete unparseable content with a changed mtime. -/
theorem C4_witness :
    stateField (("zzz").data) = none
    ∧ readHookState (some (("zzz").data, 9)) (some 4) = (HookState.unknown, some 4) :=
  ⟨by decide, C4_bad_content_amended.1 (("zzz").data) 9 (some 4) (by decide)⟩

/-! ## C6: the prompt detector -/

/-- The backward scan tested against the first non-blank line. -/
theorem detectFromEnd_eq (rl : List (List Char)) (ps : List (List Char → Bool)) :
    detectFromEnd rl ps =
      (match rl.find? (fun l => jsTrim l != []) with
       | none => false
       | some l => ps.any (fun p => p (jsTrim l))) := by
  induction rl with
  | nil => rfl
  | cons l rl ih =>
    by_cases h : jsTrim l = []
    · rw [detectFromEnd, List.find?_cons_of_neg _ (by simp [h])]
      simpa [h] using ih
    · rw [detectFromEnd, List.find?_cons_of_pos _ (by simp [h])]
      simp [h]

/-- C6: `detectPrompt` scans from the most recent line backward, skips
whitespace-only lines, and returns true exactly when some pattern matches
the trimmed first non-blank line; it returns false when all lines are blank
or the list is empty; and on the default patterns
`detect(["", "  ", "copilot> "]) = true`, `detect(["hello world"]) = false`. -/
theorem C6_detect_prompt :
    (∀ (lines : List (List Char)) (ps : List (List Char → Bool)),
      detectPrompt lines ps =
        (match lastNonBlank lines with
         | none => false
         | some l => ps.any (fun p => p (jsTrim l))))
    ∧ (∀ (lines : List (List Char)) (ps : List (List Char → Bool)),
        (∀ l ∈ lines, jsTrim l = []) → detectPrompt lines ps = false)
    ∧ (∀ ps : List (List Char → Bool), detectPrompt [] ps = false)
    ∧ detectPrompt ["".data, "  ".data, "copilot> ".data] DEFAULT_PROMPTS = true
    ∧ detectPrompt ["hello world".data] DEFAULT_PROMPTS = false := by
  have hchar : ∀ lines ps, detectPrompt lines ps =
      (match lastNonBlank lines with
       | none => false
       | some l => ps.any (fun p => p (jsTrim l))) := by
    intro lines ps
    rw [detectPrompt, lastNonBlank, detectFromEnd_eq]
  refine ⟨hchar, ?_, fun ps => rfl, by decide, by decide⟩
  intro lines ps hblank
  rw [hchar]
  have hnone : lines.reverse.find? (fun l => jsTrim l != []) = none := by
    rw [List.find?_eq_none]
    intro l hl
    simp [hblank l (List.mem_reverse.mp hl)]
  rw [lastNonBlank, hnone]

/-- C6 witness: a single whitespace-only line is blank, so detection fails. -/
theorem C6_witness :
    (∀ l ∈ [(" ".data)], jsTrim l = [])
    ∧ detectPrompt [(" ".data)] DEFAULT_PROMPTS = false :=
  ⟨by decide, C6_detect_prompt.2.1 [(" ".data)] DEFAULT_PROMPTS (by decide)⟩

/-! ## C7: the input router -/

/-- C7 counterexample: a key event whose name is not one of the handled
names and which carries neither a raw sequence nor a printable character
produces zero writes, refuting "never zero writes". -/
theorem C7_counterexample :
    sendToCopilot (KeyEvent.mk (some "f1") none) none = [] := by
  decide

/-- C7 amended: every keystroke routed to the driven process results in at
most one write; it is exactly one whenever the key is a named key (enter,
backspace, arrows), or carries a truthy raw sequence, or a truthy printable
character; named keys map to their canonical sequences, a truthy raw
sequence is forwarded verbatim, otherwise a truthy printable character is
forwarded as-is, and a key with none of these produces no write. -/
theorem C7_input_router_amended :
    (∀ (key : KeyEvent) (ch : Option String), (sendToCopilot key ch).length ≤ 1)
    ∧ (∀ (key : KeyEvent) (ch : Option String),
        (key.name ∈ namedKeys ∨ truthyOpt key.sequence = true ∨ truthyOpt ch = true) →
        (sendToCopilot key ch).length = 1)
    ∧ (∀ (key : KeyEvent) (ch : Option String),
        key.name = some "enter" → sendToCopilot key ch = ["\r"])
    ∧ (∀ (key : KeyEvent) (ch : Option String),
        key.name = some "backspace" → sendToCopilot key ch = ["\x7f"])
    ∧ (∀ (key : KeyEvent) (ch : Option String),
        key.name = some "up" → sendToCopilot key ch = ["\x1b[A"])
    ∧ (∀ (key : KeyEvent) (ch : Option String),
        key.name = some "down" → sendToCopilot key ch = ["\x1b[B"])
    ∧ (∀ (key : KeyEvent) (ch : Option String),
        key.name = some "left" → sendToCopilot key ch = ["\x1b[D"])
    ∧ (∀ (key : KeyEvent) (ch : Option String),
        key.name = some "right" → sendToCopilot key ch = ["\x1b[C"])
    ∧ (∀ (key : KeyEvent) (ch : Option String),
        key.name ∉ namedKeys → truthyOpt key.sequence = true →
        sendToCopilot key ch = [key.sequence.getD ""])
    ∧ (∀ (key : KeyEvent) (ch : Option String),
        key.name ∉ namedKeys → truthyOpt key.sequence = false → truthyOpt ch = true →
        sendToCopilot key ch = [ch.getD ""])
    ∧ (∀ (key : KeyEvent) (ch : Option String),
        key.name ∉ namedKeys → truthyOpt key.sequence = false → truthyOpt ch = false →
        sendToCopilot key ch = []) := by
  refine ⟨?_, ?_, ?_, ?_, ?_, ?_, ?_, ?_, ?_, ?_, ?_⟩
  · intro key ch
    unfold sendToCopilot
    split_ifs <;> simp
  · intro key ch h
    unfold sendToCopilot
    split_ifs <;> simp_all [namedKeys]
  all_goals intro key ch
  case _ => intro h; simp [sendToCopilot, h]
  case _ => intro h; simp [sendToCopilot, h]
  case _ => intro h; simp [sendToCopilot, h]
  case _ => intro h; simp [sendToCopilot, h]
  case _ => intro h; simp [sendToCopilot, h]
  case _ => intro h; simp [sendToCopilot, h]
  case _ =>
    intro hn hs
    unfold sendToCopilot
    split_ifs <;> simp_all [namedKeys]
  case _ =>
    intro hn hs hc
    unfold sendToCopilot
    split_ifs <;> simp_all [namedKeys]
  case _ =>
    intro hn hs hc
    unfold sendToCopilot
    split_ifs <;> simp_all [namedKeys]

/-- C7 witness: the enter key maps to a single `"\r"` write. -/
theorem C7_witness :
    sendToCopilot (KeyEvent.mk (some "enter") none) none = ["\r"] :=
  C7_input_router_amended.2.2.1 (KeyEvent.mk (some "enter") none) none rfl

/-! ## C10: dangling wrapper flags -/

/-- C10 counterexample: `--copilot` appearing as the last wrapper token is
not always ignored — when the preceding token is itself `--copilot`, the
trailing flag is consumed as that flag's value, so the default `"copilot"`
is not kept. -/
theorem C10_counterexample :
    parseArgs "default" ["--copilot", "--copilot"]
      = ParseResult.ok (Args.mk "--copilot" "default" DEFAULT_PROMPTS_SRC [])
    ∧ parseArgs "default" ["--copilot"]
      = ParseResult.ok (Args.mk "copilot" "default" DEFAULT_PROMPTS_SRC []) := by
  exact ⟨by decide, by decide⟩

/-- C10 amended: whenever the argument scanner reaches a recognised wrapper
flag (`--copilot`, `--state-file`, `--prompt-regex`) whose successor is
absent or the empty string, the flag is silently skipped: the scan
continues as if the flag token were not there, no error is raised, and the
accumulated (default or earlier-supplied) configuration is kept.  In
particular each flag alone, or followed by an empty string before the `--`
separator, leaves the defaults untouched. -/
theorem C10_dangling_flag_amended :
    (∀ (acc : Args) (f : String) (rest : List String),
      (f = "--copilot" ∨ f = "--state-file" ∨ f = "--prompt-regex") →
      (rest = [] ∨ rest.head? = some "") →
      processWrapper (f :: rest) acc = processWrapper rest acc)
    ∧ (∀ d, parseArgs d ["--copilot"]
        = ParseResult.ok (Args.mk "copilot" d DEFAULT_PROMPTS_SRC []))
    ∧ (∀ d, parseArgs d ["--state-file"]
        = ParseResult.ok (Args.mk "copilot" d DEFAULT_PROMPTS_SRC []))
    ∧ (∀ d, parseArgs d ["--prompt-regex"]
        = ParseResult.ok (Args.mk "copilot" d DEFAULT_PROMPTS_SRC []))
    ∧ (∀ d rest2, parseArgs d ("--prompt-regex" :: "" :: "--" :: rest2)
        = ParseResult.ok (Args.mk "copilot" d DEFAULT_PROMPTS_SRC rest2)) := by
  refine ⟨?_, ?_, ?_, ?_, ?_⟩
  · intro acc f rest hf hr
    cases rest with
    | nil =>
      rcases hf with rfl | rfl | rfl <;> simp [processWrapper]
    | cons b rest2 =>
      have hb : b = "" := by
        rcases hr with h | h
        · cases h
        · simpa using h
      subst hb
      rcases hf with rfl | rfl | rfl <;> simp [processWrapper]
  · intro d; simp [parseArgs, processWrapper]
  · intro d; simp [parseArgs, processWrapper]
  · intro d; simp [parseArgs, processWrapper]
  · intro d rest2; simp [parseArgs, processWrapper]

/-- C10 witness: `--copilot` as the only wrapper token is skipped. -/
theorem C10_witness :
    processWrapper ["--copilot"] (Args.mk "x" "y" [] [])
      = processWrapper [] (Args.mk "x" "y" [] []) :=
  C10_dangling_flag_amended.1 (Args.mk "x" "y" [] []) "--copilot" []
    (Or.inl rfl) (Or.inl rfl)

/-! ## Game lemmas -/

/-- `placeTarget` changes only the target. -/
theorem placeTarget_fields {g g' : Game} (h : PlaceTarget g g') :
    g'.width = g.width ∧ g'.height = g.height ∧ g'.px = g.px ∧ g'.py = g.py
      ∧ g'.score = g.score := by
  cases h <;> simp [Game.withTarget]

/-- On a non-degenerate grid, `placeTarget` never puts the target on the
player. -/
theorem placeTarget_ne {g g' : Game} (h : PlaceTarget g g')
    (hw : 1 < g.width) (hh : 1 < g.height) :
    ¬(g'.tx = g'.px ∧ g'.ty = g'.py) := by
  cases h with
  | degenerate hdeg => rcases hdeg with hd | hd <;> omega
  | sample x y _ _ _ _ _ _ hne =>
    simpa [Game.withTarget] using hne

/-- A `move` step clamps the player and preserves the grid dimensions. -/
theorem gstep_move_fields {g g' : Game} {dx dy : Int}
    (h : GStep g (GOp.move dx dy) g') :
    g'.px = clampI 0 (g.width - 1) (g.px + dx)
    ∧ g'.py = clampI 0 (g.height - 1) (g.py + dy)
    ∧ g'.width = g.width ∧ g'.height = g.height := by
  cases h with
  | moveNoCapture _ _ _ => simp [Game.moveBase]
  | moveCapture _ _ _ _ hp =>
    obtain ⟨hw, hh, hpx, hpy, _⟩ := placeTarget_fields hp
    simp only [Game.capturedBase] at hw hh hpx hpy
    exact ⟨hpx, hpy, hw, hh⟩

/-- Repeated `move(1, 0)` steps: the x coordinate follows
`min (width - 1) (x₀ + n)` and width is preserved. -/
theorem gtrace_right_px :
    ∀ (n : Nat) (g g' : Game), GTrace g (List.replicate n (GOp.move 1 0)) g' →
      1 ≤ g.width → 0 ≤ g.px →
      g'.width = g.width ∧ 0 ≤ g'.px ∧ (n = 0 → g'.px = g.px)
        ∧ (1 ≤ n → g'.px = min (g.width - 1) (g.px + n)) := by
  intro n
  induction n with
  | zero =>
    intro g g' ht hw hp
    rw [List.replicate_zero] at ht
    cases ht
    exact ⟨rfl, hp, fun _ => rfl, fun h1 => absurd h1 (by omega)⟩
  | succ n ih =>
    intro g g' ht hw hp
    rw [List.replicate_succ] at ht
    cases ht with
    | cons hs ht' =>
      rename_i g1
      obtain ⟨hpx, hpy, hW, hH⟩ := gstep_move_fields hs
      simp only [clampI] at hpx
      have hw1 : 1 ≤ g1.width := by omega
      have hp1 : 0 ≤ g1.px := by omega
      obtain ⟨ihW, ihP, ih0, ih1⟩ := ih g1 g' ht' hw1 hp1
      rcases Nat.eq_zero_or_pos n with rfl | hn
      · have h0 := ih0 rfl
        refine ⟨by omega, by omega, by omega, fun _ => ?_⟩
        push_cast
        omega
      · have h1 := ih1 hn
        refine ⟨by omega, by omega, by omega, fun _ => ?_⟩
        rw [hW] at h1
        push_cast at h1 ⊢
        omega

/-! ## C9: score monotonicity -/

/-- C9 counterexample: `reset` from a state with score 3 drops the score to
0, so the score is not non-decreasing across every game operation. -/
theorem C9_counterexample :
    GStep (Game.mk 10 6 2 2 4 4 3) GOp.reset
      ((Game.mk 10 6 2 2 4 4 3).resetBase.withTarget 0 0)
    ∧ ((Game.mk 10 6 2 2 4 4 3).resetBase.withTarget 0 0).score
        < (Game.mk 10 6 2 2 4 4 3).score := by
  constructor
  · exact GStep.reset _ _
      (PlaceTarget.sample _ 0 0 (by decide) (by decide) (by decide) (by decide)
        (by decide) (by decide) (by decide))
  · decide

/-- C9 amended: the score is non-decreasing under `move` (it grows by
exactly one on a capture and is otherwise unchanged) and preserved by
`resize`; `reset` however restarts the score at 0. -/
theorem C9_score_amended :
    (∀ (g : Game) (dx dy : Int) (g' : Game),
      GStep g (GOp.move dx dy) g' → g.score ≤ g'.score)
    ∧ (∀ (g : Game) (w h : Int) (g' : Game),
      GStep g (GOp.resize w h) g' → g'.score = g.score)
    ∧ (∀ (g g' : Game), GStep g GOp.reset g' → g'.score = 0) := by
  refine ⟨?_, ?_, ?_⟩
  · intro g dx dy g' h
    cases h with
    | moveNoCapture _ _ _ => simp [Game.moveBase]
    | moveCapture _ _ _ _ hp =>
      obtain ⟨_, _, _, _, hsc⟩ := placeTarget_fields hp
      simp only [Game.capturedBase] at hsc
      omega
  · intro g w h g' hs
    cases hs with
    | resize _ _ _ hp =>
      obtain ⟨_, _, _, _, hsc⟩ := placeTarget_fields hp
      simpa [Game.resizeBase] using hsc
  · intro g g' hs
    cases hs with
    | reset _ hp =>
      obtain ⟨_, _, _, _, hsc⟩ := placeTarget_fields hp
      simpa [Game.resetBase] using hsc

/-- C9 witness: a concrete reset step lands on score 0. -/
theorem C9_witness :
    ((Game.mk 10 6 1 1 3 3 7).resetBase.withTarget 2 2).score = 0 :=
  C9_score_amended.2.2 _ _
    (GStep.reset _ _
      (PlaceTarget.sample _ 2 2 (by decide) (by decide) (by decide) (by decide)
        (by decide) (by decide) (by decide)))

/-! ## C8: game movement, capture and target placement -/

/-- C8: every `move` clamps the player by one commanded cell into the grid;
from any in-grid position on a grid of width ≥ 5, moving right `width`
times ends at `x = width - 1`; a capturing move increments the score by
exactly one and relocates the target off the player's cell, a
non-capturing move leaves the score unchanged; and after any move, reset
or resize on a grid with width, height ≥ 5 the target does not coincide
with the player. -/
theorem C8_game_moves :
    (∀ (g : Game) (dx dy : Int) (g' : Game), GStep g (GOp.move dx dy) g' →
      g'.px = clampI 0 (g.width - 1) (g.px + dx)
      ∧ g'.py = clampI 0 (g.height - 1) (g.py + dy))
    ∧ (∀ (g g' : Game), 5 ≤ g.width → 0 ≤ g.px →
        GTrace g (List.replicate g.width.toNat (GOp.move 1 0)) g' →
        g'.px = g.width - 1)
    ∧ (∀ (g : Game) (dx dy : Int) (g' : Game), 5 ≤ g.width → 5 ≤ g.height →
        GStep g (GOp.move dx dy) g' →
        (((g.moveBase dx dy).px = g.tx ∧ (g.moveBase dx dy).py = g.ty) →
          g'.score = g.score + 1 ∧ ¬(g'.tx = g'.px ∧ g'.ty = g'.py))
        ∧ (¬((g.moveBase dx dy).px = g.tx ∧ (g.moveBase dx dy).py = g.ty) →
          g'.score = g.score))
    ∧ (∀ (g : Game) (op : GOp) (g' : Game), 5 ≤ g.width → 5 ≤ g.height →
        GStep g op g' → ¬(g'.tx = g'.px ∧ g'.ty = g'.py)) := by
  refine ⟨?_, ?_, ?_, ?_⟩
  · intro g dx dy g' h
    obtain ⟨h1, h2, _, _⟩ := gstep_move_fields h
    exact ⟨h1, h2⟩
  · intro g g' hw hp ht
    have h1 : 1 ≤ g.width.toNat := by omega
    obtain ⟨_, _, _, hfin⟩ :=
      gtrace_right_px g.width.toNat g g' ht (by omega) hp
    have := hfin h1
    have hcast : ((g.width.toNat : ℤ)) = g.width := Int.toNat_of_nonneg (by omega)
    omega
  · intro g dx dy g' hw hh hs
    constructor
    · intro hcap
      cases hs with
      | moveNoCapture _ _ hnc => exact absurd hcap hnc
      | moveCapture _ _ _ _ hp =>
        obtain ⟨hW, hH, _, _, hsc⟩ := placeTarget_fields hp
        simp only [Game.capturedBase] at hW hH hsc
        refine ⟨hsc, ?_⟩
        exact placeTarget_ne hp (by simp [Game.capturedBase]; omega)
          (by simp [Game.capturedBase]; omega)
    · intro hnc
      cases hs with
      | moveNoCapture _ _ _ => simp [Game.moveBase]
      | moveCapture _ _ _ hcap _ => exact absurd hcap hnc
  · intro g op g' hw hh hs
    cases hs with
    | moveNoCapture _ _ hnc =>
      simp only [Game.moveBase] at hnc ⊢
      intro hc
      exact hnc ⟨hc.1.symm, hc.2.symm⟩
    | moveCapture _ _ _ _ hp =>
      exact placeTarget_ne hp (by simp [Game.capturedBase]; omega)
        (by simp [Game.capturedBase]; omega)
    | reset _ hp =>
      exact placeTarget_ne hp (by simp [Game.resetBase]; omega)
        (by simp [Game.resetBase]; omega)
    | resize _ _ _ hp =>
      exact placeTarget_ne hp (by simp only [Game.resizeBase]; omega)
        (by simp only [Game.resizeBase]; omega)

/-- C8 witness: a concrete non-capturing right move from the origin on the
10×6 grid clamps to the expected position. -/
theorem C8_witness :
    ((Game.mk 10 6 0 0 5 5 0).moveBase 1 0).px
        = clampI 0 ((Game.mk 10 6 0 0 5 5 0).width - 1)
            ((Game.mk 10 6 0 0 5 5 0).px + 1)
    ∧ ((Game.mk 10 6 0 0 5 5 0).moveBase 1 0).py
        = clampI 0 ((Game.mk 10 6 0 0 5 5 0).height - 1)
            ((Game.mk 10 6 0 0 5 5 0).py + 0) :=
  C8_game_moves.1 _ 1 0 _ (GStep.moveNoCapture _ 1 0 (by decide))

/-! ## Output-buffer lemmas -/

/-- The default of `lastD` is irrelevant on non-empty lists. -/
theorem lastD_irrel (y : List Char) (ys : List (List Char)) (d d' : List Char) :
    lastD (y :: ys) d = lastD (y :: ys) d' := by
  induction ys generalizing y with
  | nil => rfl
  | cons z zs ih => simpa [lastD] using ih z

/-- `lastD` only looks at the final non-empty block. -/
theorem lastD_append_cons (xs : List (List Char)) (y : List Char)
    (ys : List (List Char)) (d : List Char) :
    lastD (xs ++ y :: ys) d = lastD (y :: ys) d := by
  induction xs with
  | nil => rfl
  | cons x xs ih =>
    cases xs with
    | nil => simp [lastD]
    | cons x2 xs2 => simpa [lastD] using ih

/-- `lastD` of a list ending in a singleton block. -/
theorem lastD_concat (xs : List (List Char)) (z : List Char) (d : List Char) :
    lastD (xs ++ [z]) d = z := by
  rw [lastD_append_cons xs z [] d]
  rfl

/-- The length of the last-`n` slice. -/
theorem length_takeLast (n : Nat) (xs : List (List Char)) :
    (takeLast n xs).length = min n xs.length := by
  simp [takeLast]

/-- The last-`n` slice of a short list is the list itself. -/
theorem takeLast_of_le {n : Nat} {xs : List (List Char)} (h : xs.length ≤ n) :
    takeLast n xs = xs := by
  rw [takeLast, List.take_of_length_le (by simpa using h), List.reverse_reverse]

/-- The conditional truncation of `append` is the unconditional last-2000
slice. -/
theorem truncate2000_eq (xs : List (List Char)) :
    truncate2000 xs = takeLast 2000 xs := by
  rw [truncate2000]
  split
  · rfl
  · next h => exact (takeLast_of_le (by omega)).symm

/-- Truncating, appending and truncating again is the same as truncating
the whole concatenation: dropping oldest lines commutes with later
appends. -/
theorem takeLast_append_takeLast (n : Nat) (xs ys : List (List Char)) :
    takeLast n (takeLast n xs ++ ys) = takeLast n (xs ++ ys) := by
  simp only [takeLast, List.reverse_append, List.reverse_reverse,
    List.take_append_eq_append_take, List.take_take, List.length_reverse,
    List.length_take]
  rw [Nat.min_eq_left (Nat.sub_le n ys.length)]

/-- Splitting a concatenation on newlines combines the splits of the two
halves. -/
theorem splitNl_append (a b : List Char) :
    splitNl (a ++ b) = combineSplit (splitNl a) (splitNl b) := by
  induction a with
  | nil => simp [splitNl, combineSplit]
  | cons c a ih =>
    rcases ha : splitNl a with ⟨sa, ssa⟩
    rcases hb : splitNl b with ⟨sb, ssb⟩
    rw [ha, hb] at ih
    show splitNl (c :: (a ++ b)) = combineSplit (splitNl (c :: a)) (sb, ssb)
    rw [splitNl, splitNl, ih, ha]
    by_cases hc : c = '\n'
    · cases ssa with
      | nil => simp [hc, combineSplit, lastD]
      | cons q qs => simp [hc, combineSplit, lastD, List.dropLast_cons₂]
    · cases ssa with
      | nil => simp [hc, combineSplit]
      | cons q qs => simp [hc, combineSplit]

/-- Line assembly over already-cleaned text is compositional: appending `u`
then `v` is appending `u ++ v`. -/
theorem appendClean_append (b : OutputBuffer) (u v : List Char) :
    appendClean (appendClean b u) v = appendClean b (u ++ v) := by
  rcases hu : splitNl u with ⟨su, ssu⟩
  rcases hv : splitNl v with ⟨sv, ssv⟩
  have hval := splitNl_append u v
  rw [hu, hv] at hval
  cases ssu with
  | nil =>
    cases ssv with
    | nil => simp [appendClean, hu, hv, hval, combineSplit, List.append_assoc]
    | cons r rs => simp [appendClean, hu, hv, hval, combineSplit, List.append_assoc]
  | cons q qs =>
    cases ssv with
    | nil =>
      simp only [appendClean, hu, hv, hval, combineSplit, List.cons_ne_nil,
        if_neg, if_pos, List.append_nil, reduceIte]
      rw [if_neg (by simp), OutputBuffer.mk.injEq]
      exact ⟨by rw [List.dropLast_concat], by rw [lastD_concat]⟩
    | cons r rs =>
      simp only [appendClean, hu, hv, hval, combineSplit, List.cons_ne_nil,
        if_neg, reduceIte]
      rw [if_neg (by simp), OutputBuffer.mk.injEq]
      constructor
      · rw [List.dropLast_append_cons, List.dropLast_cons₂,
          truncate2000_eq, truncate2000_eq, truncate2000_eq,
          show b.lines ++ (b.pending ++ su) ::
                ((q :: qs).dropLast ++ (lastD (q :: qs) [] ++ sv) :: (r :: rs).dropLast)
              = (b.lines ++ (b.pending ++ su) :: (q :: qs).dropLast)
                ++ (lastD (q :: qs) [] ++ sv) :: (r :: rs).dropLast from by
            simp [List.append_assoc],
          takeLast_append_takeLast]
      · rw [lastD_append_cons]
        rfl

/-! ## C2: chunk-boundary invariance of buffer assembly -/

/-- C2 counterexample: with a CSI escape sequence split across the chunk
boundary (`A = "ESC["`, `B = "1m\n"`), appending `A` then `B` completes the
line `"ESC[1m"` while appending `A ++ B` strips the sequence and completes
the empty line — the completed lines differ, not merely the final partial
line. -/
theorem C2_counterexample :
    ((OutputBuffer.empty.append ("\x1b[".data)).append ("1m\n".data)).lines
      = [("\x1b[1m".data)]
    ∧ (OutputBuffer.empty.append (("\x1b[".data) ++ ("1m\n".data))).lines = [[]]
    ∧ ((OutputBuffer.empty.append ("\x1b[".data)).append ("1m\n".data)).lines
        ≠ (OutputBuffer.empty.append (("\x1b[".data) ++ ("1m\n".data))).lines := by
  exact ⟨by decide, by decide, by decide⟩

/-- C2 amended: whenever the ANSI/carriage-return cleaning distributes over
the chunk boundary (in particular whenever no CSI escape sequence is split
between `A` and `B`), appending `A` then `B` from any prior buffer state
yields exactly the same buffer — the same completed lines and the same
final partial line — as appending `A ++ B` in one call. -/
theorem C2_chunk_invariance_amended :
    ∀ (b : OutputBuffer) (A B : List Char),
      cleanChunk (A ++ B) = cleanChunk A ++ cleanChunk B →
      (b.append A).append B = b.append (A ++ B) := by
  intro b A B h
  rw [OutputBuffer.append, OutputBuffer.append, OutputBuffer.append, h,
    appendClean_append]

/-- C2 witness: a plain split with no escape sequence across the boundary. -/
theorem C2_witness :
    cleanChunk (("ab\n".data) ++ ("cd".data))
        = cleanChunk ("ab\n".data) ++ cleanChunk ("cd".data)
    ∧ (OutputBuffer.empty.append ("ab\n".data)).append ("cd".data)
        = OutputBuffer.empty.append (("ab\n".data) ++ ("cd".data)) :=
  ⟨by decide,
    C2_chunk_invariance_amended OutputBuffer.empty ("ab\n".data) ("cd".data)
      (by decide)⟩

/-! ## C3: the 2000-line bound -/

/-- One append preserves the 2000-line bound. -/
theorem append_lines_le (b : OutputBuffer) (t : List Char)
    (h : b.lines.length ≤ 2000) : (b.append t).lines.length ≤ 2000 := by
  by_cases hr : (splitNl (cleanChunk t)).2 = []
  · simpa [OutputBuffer.append, appendClean, hr] using h
  · simp only [OutputBuffer.append, appendClean, hr, if_neg, reduceIte]
    rw [truncate2000_eq, length_takeLast]
    omega

/-- Folding any chunk list over a bounded buffer stays bounded. -/
theorem foldl_append_lines_le :
    ∀ (chunks : List (List Char)) (b : OutputBuffer),
      b.lines.length ≤ 2000 →
      (chunks.foldl OutputBuffer.append b).lines.length ≤ 2000 := by
  intro chunks
  induction chunks with
  | nil => intro b h; simpa using h
  | cons t ts ih =>
    intro b h
    exact ih (b.append t) (append_lines_le b t h)

/-- C3: after any append on a buffer holding at most 2000 completed lines
the buffer still holds at most 2000; hence after any sequence of appends
from the empty buffer the completed-line count never exceeds 2000; and
whenever a chunk inserts completed lines, the resulting lines are exactly
the most recent 2000 of the old lines plus the newly completed ones (the
oldest dropped silently). -/
theorem C3_buffer_bound :
    (∀ (b : OutputBuffer) (t : List Char), b.lines.length ≤ 2000 →
      (b.append t).lines.length ≤ 2000)
    ∧ (∀ chunks : List (List Char), (appendAll chunks).lines.length ≤ 2000)
    ∧ (∀ (b : OutputBuffer) (t : List Char), (splitNl (cleanChunk t)).2 ≠ [] →
      (b.append t).lines = takeLast 2000 (b.lines ++ newCompleted b t)) := by
  refine ⟨append_lines_le, ?_, ?_⟩
  · intro chunks
    exact foldl_append_lines_le chunks OutputBuffer.empty (by simp [OutputBuffer.empty])
  · intro b t hr
    simp only [OutputBuffer.append, appendClean, newCompleted, hr, if_neg, reduceIte]
    rw [truncate2000_eq]

/-- C3 witness: one concrete append keeps the bound. -/
theorem C3_witness :
    (OutputBuffer.empty.append ("a\n".data)).lines.length ≤ 2000 :=
  C3_buffer_bound.1 OutputBuffer.empty ("a\n".data) (by decide)

end CopilotPlay
